import Mathlib

/-
Verification of the CPG oscillator (src/controllers/cpg.py) and the PPO
learning agent (src/scripts/test_agent.py) of the group_21_rl_cpg repository.

Real-valued program state is embedded over ℝ (numpy scalars), list-valued
tensor data over ℚ where no transcendental function occurs (GAE) and over ℝ
where `exp`, `sin`, `cos` occur (PPO loss, oscillator output).
-/

/-! ## Embedding of src/controllers/cpg.py -/

/-- `np.clip(x, lo, hi)` for scalars: `min (max x lo) hi`. -/
noncomputable def npClip (x lo hi : ℝ) : ℝ := min (max x lo) hi

/-- Python's float `%` (sign follows the divisor): `x - y * ⌊x / y⌋`. -/
noncomputable def fmod (x y : ℝ) : ℝ := x - y * (Int.floor (x / y) : ℝ)

/-- The `CPG` object of `cpg.py`: the five mutable oscillator fields
(`amplitude`, `frequency`, `phase`, `current_amplitude`, `current_phase`)
together with the timestep, the parameter limits and the robot geometry
constants set in `__init__`.  The `debug` flag only controls printing and is
omitted. -/
structure CPG where
  dt : ℝ
  amplitude : ℝ
  frequency : ℝ
  phase : ℝ
  current_amplitude : ℝ
  current_phase : ℝ
  amplitude_min : ℝ
  amplitude_max : ℝ
  frequency_min : ℝ
  frequency_max : ℝ
  phase_min : ℝ
  phase_max : ℝ
  d_step : ℝ
  h : ℝ
  gc : ℝ
  gp : ℝ

/-- `CPG.__init__(dt, phase, amplitude=0.01, frequency=0.5)`. -/
noncomputable def CPG.init (dt phase amplitude frequency : ℝ) : CPG :=
  { dt := dt
    amplitude := amplitude
    frequency := frequency
    phase := phase
    current_amplitude := amplitude
    current_phase := phase
    amplitude_min := 0.05
    amplitude_max := 0.35
    frequency_min := 0.1
    frequency_max := 3.0
    phase_min := -Real.pi
    phase_max := Real.pi
    d_step := 0.150
    h := 0.30
    gc := 0.10
    gp := 0.0 }

/-- `CPG.reset(phase, amplitude=0.01, frequency=0.5)`. -/
def CPG.reset (s : CPG) (phase amplitude frequency : ℝ) : CPG :=
  { s with
    amplitude := amplitude
    frequency := frequency
    phase := phase
    current_amplitude := amplitude
    current_phase := phase }

/-- `CPG.update(amplitude_delta, frequency_delta, phase_delta)`: scales the
raw deltas by `(max - min) * 0.005`, clips `amplitude` and `frequency`,
wraps `phase` and `current_phase` modulo `2π`, advances `current_amplitude`
by first-order smoothing with gain 30.0, and returns the foot position
`(x_foot, z_foot)` together with the mutated state. -/
noncomputable def CPG.update (s : CPG)
    (amplitude_delta frequency_delta phase_delta : ℝ) : (ℝ × ℝ) × CPG :=
  let ad := amplitude_delta * ((s.amplitude_max - s.amplitude_min) * 0.005)
  let fd := frequency_delta * ((s.frequency_max - s.frequency_min) * 0.005)
  let pd := phase_delta * ((s.phase_max - s.phase_min) * 0.005)
  let amplitude := npClip (s.amplitude + ad) s.amplitude_min s.amplitude_max
  let frequency := npClip (s.frequency + fd) s.frequency_min s.frequency_max
  let phase := fmod (s.phase + pd) (2 * Real.pi)
  let current_amplitude :=
    s.current_amplitude + 30.0 * (amplitude - s.current_amplitude) * s.dt
  let current_phase := fmod (s.current_phase + frequency * s.dt) (2 * Real.pi)
  let x_foot := -s.d_step * (current_amplitude - 1) * Real.cos current_phase
  let z_foot :=
    if Real.sin current_phase > 0 then -s.h + s.gc * Real.sin current_phase
    else -s.h + s.gp * Real.sin current_phase
  ((x_foot, z_foot),
   { s with
     amplitude := amplitude
     frequency := frequency
     phase := phase
     current_amplitude := current_amplitude
     current_phase := current_phase })

/-- States reachable through the public surface of the `CPG` class:
construction, `reset` and `update`. -/
inductive CPG.Reachable : CPG → Prop where
  | init (dt phase amplitude frequency : ℝ) :
      CPG.Reachable (CPG.init dt phase amplitude frequency)
  | reset (s : CPG) (phase amplitude frequency : ℝ) :
      CPG.Reachable s → CPG.Reachable (CPG.reset s phase amplitude frequency)
  | update (s : CPG) (ad fd pd : ℝ) :
      CPG.Reachable s → CPG.Reachable (CPG.update s ad fd pd).2

/-- The parameter limits and geometry constants as fixed by `__init__`. -/
def CPG.defaultLimits (s : CPG) : Prop :=
  s.amplitude_min = 0.05 ∧ s.amplitude_max = 0.35 ∧
  s.frequency_min = 0.1 ∧ s.frequency_max = 3.0 ∧
  s.phase_min = -Real.pi ∧ s.phase_max = Real.pi ∧
  s.d_step = 0.150 ∧ s.h = 0.30 ∧ s.gc = 0.10 ∧ s.gp = 0.0

/-- One zero-delta update step, keeping only the mutated state (used for the
convergence scenario `dt=0.01`, `phase=0`, `amplitude=0.01`, `frequency=0.5`). -/
noncomputable def zeroStep (s : CPG) : CPG := (CPG.update s 0 0 0).2

/-- The oscillator state after `n` zero-delta updates of
`CPG.init 0.01 0 0.01 0.5`. -/
noncomputable def zeroRun (n : ℕ) : CPG := zeroStep^[n] (CPG.init 0.01 0 0.01 0.5)

/-- Distance between the smoothed amplitude and the target amplitude after
`n` zero-delta updates. -/
noncomputable def zeroRunDist (n : ℕ) : ℝ :=
  |(zeroRun n).current_amplitude - (zeroRun n).amplitude|

/-- Invariant of the zero-delta run: limits intact, `dt = 0.01`, frequency
pinned at `0.5`, smoothed amplitude at `0.05 - 0.04 * 0.7^n`, and the target
amplitude equal to `0.01` initially and to the clamped `0.05` afterwards. -/
def ZeroRunInv (n : ℕ) (s : CPG) : Prop :=
  CPG.defaultLimits s ∧ s.dt = 0.01 ∧ s.frequency = 0.5 ∧
  s.current_amplitude = 0.05 - 0.04 * (0.7 : ℝ) ^ n ∧
  (n = 0 → s.amplitude = 0.01) ∧ (1 ≤ n → s.amplitude = 0.05)

/-! ## Embedding of src/scripts/test_agent.py -/

/-- `LearningAgent.rollout_steps`. -/
def rollout_steps : ℕ := 100

/-- `LearningAgent.max_timestep`. -/
def max_timestep : ℕ := 1000

/-- Four-way `zipWith` over rationals, used for the vectorized
`deltas = rewards + gamma * next_state_values * (1 - dones) - state_values`. -/
def zipWith4 (fn : ℚ → ℚ → ℚ → ℚ → ℚ) :
    List ℚ → List ℚ → List ℚ → List ℚ → List ℚ
  | a :: as, b :: bs, c :: cs, d :: ds => fn a b c d :: zipWith4 fn as bs cs ds
  | _, _, _, _ => []

/-- The TD residual vector
`deltas = rewards + gamma * next_state_values * (1 - dones) - state_values`
of `LearningAgent.compute_advantages`. -/
def tdDeltas (gamma : ℚ) (rewards state_values next_state_values dones : List ℚ) :
    List ℚ :=
  zipWith4 (fun r v nv d => r + gamma * nv * (1 - d) - v)
    rewards state_values next_state_values dones

/-- The backward loop of `LearningAgent.compute_advantages`: the Python loop
`for t in reversed(range(n)): gae = deltas[t] + gamma * lam * (1 - dones[t]) * gae;
advantages[t] = gae` with carry `gae` starting at 0 is unrolled so that the
advantage at the head uses the head of the tail's advantages (or `0` past the
end). -/
def gaeBackward (gamma lam : ℚ) : List ℚ → List ℚ → List ℚ
  | dl :: dls, dn :: dns =>
      let tail := gaeBackward gamma lam dls dns
      (dl + gamma * lam * (1 - dn) * tail.headD 0) :: tail
  | _, _ => []

/-- `LearningAgent.compute_advantages(rewards, state_values, next_state_values,
dones)` with discount `gamma` and GAE decay `lam`. -/
def compute_advantages (gamma lam : ℚ)
    (rewards state_values next_state_values dones : List ℚ) : List ℚ :=
  gaeBackward gamma lam
    (tdDeltas gamma rewards state_values next_state_values dones) dones

/-- The `returns = advantages + state_values` computed by
`LearningAgent.update_network` right after `compute_advantages`. -/
def update_returns (gamma lam : ℚ)
    (rewards state_values next_state_values dones : List ℚ) : List ℚ :=
  List.zipWith (· + ·)
    (compute_advantages gamma lam rewards state_values next_state_values dones)
    state_values

/-- `tensor.mean()` of a 1-D tensor: sum divided by length. -/
noncomputable def listMean (l : List ℝ) : ℝ := l.sum / l.length

/-- `torch.clamp(x, lo, hi)` for scalars, elementwise below. -/
noncomputable def torchClamp (x lo hi : ℝ) : ℝ := min (max x lo) hi

/-- `LearningAgent.ppo_loss(log_probs, log_probs_old, advantages, values,
returns, entropy)`: returns `(total_loss, policy_loss, value_loss)`. -/
noncomputable def ppo_loss (epsilon entropy_coef : ℝ)
    (log_probs log_probs_old advantages values returns entropy : List ℝ) :
    ℝ × ℝ × ℝ :=
  let ratios := List.zipWith (fun lp lpo => Real.exp (lp - lpo))
    log_probs log_probs_old
  let surr1 := List.zipWith (· * ·) ratios advantages
  let surr2 := List.zipWith
    (fun rt a => torchClamp rt (1 - epsilon) (1 + epsilon) * a) ratios advantages
  let policy_loss := -(listMean (List.zipWith min surr1 surr2))
  let value_loss := listMean (List.zipWith (fun v ret => (v - ret) ^ 2)
    values returns)
  let entropy_bonus := listMean entropy
  (policy_loss + 0.5 * value_loss - entropy_coef * entropy_bonus,
   policy_loss, value_loss)

/-- Three-way `zipWith` over reals, used to state the fused form of the
clipped-surrogate policy loss. -/
def zipWith3 (fn : ℝ → ℝ → ℝ → ℝ) : List ℝ → List ℝ → List ℝ → List ℝ
  | a :: as, b :: bs, c :: cs => fn a b c :: zipWith3 fn as bs cs
  | _, _, _ => []

/-- One entry of `LearningAgent.episode_buffer`: the dict appended per step
in `LearningAgent.run`. -/
structure Transition where
  obs : List ℝ
  action : List ℝ
  reward : ℝ
  log_prob : ℝ
  state_value : ℝ
  next_state_value : ℝ
  done : Bool

/-- The trainer state tracked by `LearningAgent.run` within its episode loop:
the per-episode step counter, the episode buffer, the `done` flag last
returned by the environment, and the number of completed update cycles. -/
structure TrainerState where
  timestep : ℕ
  episode_buffer : List Transition
  done : Bool
  updates : ℕ

/-- One iteration of the inner `while` loop of `LearningAgent.run`: append
the new transition, increment `timestep`, and (if the environment signalled
`done` or `timestep % rollout_steps == 0`) run `update_network` and clear the
buffer.  The environment step and policy forward pass are external (§6), so
the transition `tr` produced by them is an arbitrary input; `tr.done` is the
`done` flag returned by `env.step`. -/
def trainerStep (s : TrainerState) (tr : Transition) : TrainerState :=
  let t' := s.timestep + 1
  let buf' := s.episode_buffer ++ [tr]
  if tr.done = true ∨ t' % rollout_steps = 0 then
    { timestep := t', episode_buffer := [], done := tr.done,
      updates := s.updates + 1 }
  else
    { timestep := t', episode_buffer := buf', done := tr.done,
      updates := s.updates }

/-- Trainer states reachable in `LearningAgent.run`: the initial state, an
inner-loop iteration (guarded by `not done and timestep < max_timestep`), and
the start of the next episode (which resets `timestep` and `done` but does
not touch the buffer or the update counter). -/
inductive TrainerReachable : TrainerState → Prop where
  | init : TrainerReachable
      { timestep := 0, episode_buffer := [], done := false, updates := 0 }
  | step (s : TrainerState) (tr : Transition) : TrainerReachable s →
      s.done = false → s.timestep < max_timestep →
      TrainerReachable (trainerStep s tr)
  | episode (s : TrainerState) : TrainerReachable s →
      (s.done = true ∨ max_timestep ≤ s.timestep) →
      TrainerReachable
        { timestep := 0, episode_buffer := s.episode_buffer, done := false,
          updates := s.updates }

/-- Invariant of the trainer loop: the step counter never passes the cap,
the buffer length is `timestep % rollout_steps` while the episode is live,
and the buffer is empty right after a terminal step. -/
def TrainerInv (s : TrainerState) : Prop :=
  s.timestep ≤ max_timestep ∧
  (s.done = false → s.episode_buffer.length = s.timestep % rollout_steps) ∧
  (s.done = true → s.episode_buffer = [])

/-! ## Helper lemmas for the CPG embedding -/

theorem npClip_le_left (x lo hi : ℝ) (hlohi : lo ≤ hi) : lo ≤ npClip x lo hi :=
  le_min (le_max_right x lo) hlohi

theorem npClip_le_right (x lo hi : ℝ) : npClip x lo hi ≤ hi :=
  min_le_right _ _

theorem fmod_eq_mul_fract (x y : ℝ) (hy : y ≠ 0) :
    fmod x y = y * Int.fract (x / y) := by
  have hxy : y * (x / y) = x := by field_simp
  unfold fmod Int.fract
  rw [mul_sub, hxy]

theorem fmod_nonneg (x y : ℝ) (hy : 0 < y) : 0 ≤ fmod x y := by
  rw [fmod_eq_mul_fract x y hy.ne']
  exact mul_nonneg hy.le (Int.fract_nonneg _)

theorem fmod_lt (x y : ℝ) (hy : 0 < y) : fmod x y < y := by
  rw [fmod_eq_mul_fract x y hy.ne']
  calc y * Int.fract (x / y) < y * 1 :=
        mul_lt_mul_of_pos_left (Int.fract_lt_one _) hy
    _ = y := mul_one y

theorem CPG.update_amplitude (s : CPG) (ad fd pd : ℝ) :
    (CPG.update s ad fd pd).2.amplitude =
      npClip (s.amplitude + ad * ((s.amplitude_max - s.amplitude_min) * 0.005))
        s.amplitude_min s.amplitude_max := rfl

theorem CPG.update_frequency (s : CPG) (ad fd pd : ℝ) :
    (CPG.update s ad fd pd).2.frequency =
      npClip (s.frequency + fd * ((s.frequency_max - s.frequency_min) * 0.005))
        s.frequency_min s.frequency_max := rfl

theorem CPG.update_phase (s : CPG) (ad fd pd : ℝ) :
    (CPG.update s ad fd pd).2.phase =
      fmod (s.phase + pd * ((s.phase_max - s.phase_min) * 0.005))
        (2 * Real.pi) := rfl

theorem CPG.update_current_amplitude (s : CPG) (ad fd pd : ℝ) :
    (CPG.update s ad fd pd).2.current_amplitude =
      s.current_amplitude +
        30.0 * ((CPG.update s ad fd pd).2.amplitude - s.current_amplitude) * s.dt := rfl

theorem CPG.update_current_phase (s : CPG) (ad fd pd : ℝ) :
    (CPG.update s ad fd pd).2.current_phase =
      fmod (s.current_phase + (CPG.update s ad fd pd).2.frequency * s.dt)
        (2 * Real.pi) := rfl

theorem CPG.reachable_defaultLimits {s : CPG} (hreach : CPG.Reachable s) :
    CPG.defaultLimits s := by
  induction hreach with
  | init dt phase amplitude frequency =>
      exact ⟨rfl, rfl, rfl, rfl, rfl, rfl, rfl, rfl, rfl, rfl⟩
  | reset s phase amplitude frequency hs ih => exact ih
  | update s ad fd pd hs ih => exact ih

/-! ## Claim theorems about the oscillator -/

/-- C1: for every reachable oscillator state and every real-valued delta
triple, after `CPG.update` the target amplitude lies in `[0.05, 0.35]`, the
target frequency in `[0.1, 3.0]`, and `current_phase` in `[0, 2π)`. -/
theorem cpg_update_invariant (s : CPG) (hreach : CPG.Reachable s)
    (ad fd pd : ℝ) :
    0.05 ≤ (CPG.update s ad fd pd).2.amplitude ∧
    (CPG.update s ad fd pd).2.amplitude ≤ 0.35 ∧
    0.1 ≤ (CPG.update s ad fd pd).2.frequency ∧
    (CPG.update s ad fd pd).2.frequency ≤ 3.0 ∧
    0 ≤ (CPG.update s ad fd pd).2.current_phase ∧
    (CPG.update s ad fd pd).2.current_phase < 2 * Real.pi := by
  obtain ⟨hma, hMa, hmf, hMf, -, -, -, -, -, -⟩ :=
    CPG.reachable_defaultLimits hreach
  refine ⟨?_, ?_, ?_, ?_, ?_, ?_⟩
  · rw [CPG.update_amplitude, ← hma]
    exact npClip_le_left _ _ _ (by rw [hma, hMa]; norm_num)
  · rw [CPG.update_amplitude, ← hMa]
    exact npClip_le_right _ _ _
  · rw [CPG.update_frequency, ← hmf]
    exact npClip_le_left _ _ _ (by rw [hmf, hMf]; norm_num)
  · rw [CPG.update_frequency, ← hMf]
    exact npClip_le_right _ _ _
  · rw [CPG.update_current_phase]
    exact fmod_nonneg _ _ Real.two_pi_pos
  · rw [CPG.update_current_phase]
    exact fmod_lt _ _ Real.two_pi_pos

theorem cpg_update_invariant_witness :
    0.05 ≤ (CPG.update (CPG.init 0.01 0 0.01 0.5) 1 (-1) 0.3).2.amplitude ∧
    (CPG.update (CPG.init 0.01 0 0.01 0.5) 1 (-1) 0.3).2.amplitude ≤ 0.35 ∧
    0.1 ≤ (CPG.update (CPG.init 0.01 0 0.01 0.5) 1 (-1) 0.3).2.frequency ∧
    (CPG.update (CPG.init 0.01 0 0.01 0.5) 1 (-1) 0.3).2.frequency ≤ 3.0 ∧
    0 ≤ (CPG.update (CPG.init 0.01 0 0.01 0.5) 1 (-1) 0.3).2.current_phase ∧
    (CPG.update (CPG.init 0.01 0 0.01 0.5) 1 (-1) 0.3).2.current_phase
      < 2 * Real.pi :=
  cpg_update_invariant (CPG.init 0.01 0 0.01 0.5)
    (CPG.Reachable.init 0.01 0 0.01 0.5) 1 (-1) 0.3

/-- C5: each raw delta is scaled to `raw * 0.005 * (max - min)` before being
added to its target parameter, and for the phase the legal range
`[phase_min, phase_max] = [-π, π]` has total width `2π`. -/
theorem cpg_delta_scaling (s : CPG) (hlim : CPG.defaultLimits s)
    (ad fd pd : ℝ) :
    (CPG.update s ad fd pd).2.amplitude =
      npClip (s.amplitude + ad * 0.005 * (0.35 - 0.05)) 0.05 0.35 ∧
    (CPG.update s ad fd pd).2.frequency =
      npClip (s.frequency + fd * 0.005 * (3.0 - 0.1)) 0.1 3.0 ∧
    (CPG.update s ad fd pd).2.phase =
      fmod (s.phase + pd * 0.005 * (2 * Real.pi)) (2 * Real.pi) := by
  obtain ⟨hma, hMa, hmf, hMf, hmp, hMp, -, -, -, -⟩ := hlim
  refine ⟨?_, ?_, ?_⟩
  · rw [CPG.update_amplitude, hma, hMa]; ring_nf
  · rw [CPG.update_frequency, hmf, hMf]; ring_nf
  · rw [CPG.update_phase, hmp, hMp]; ring_nf

theorem cpg_delta_scaling_witness :
    (CPG.update (CPG.init 0.01 2 0.2 0.5) 1 1 1).2.amplitude =
      npClip ((CPG.init 0.01 2 0.2 0.5).amplitude + 1 * 0.005 * (0.35 - 0.05))
        0.05 0.35 ∧
    (CPG.update (CPG.init 0.01 2 0.2 0.5) 1 1 1).2.frequency =
      npClip ((CPG.init 0.01 2 0.2 0.5).frequency + 1 * 0.005 * (3.0 - 0.1))
        0.1 3.0 ∧
    (CPG.update (CPG.init 0.01 2 0.2 0.5) 1 1 1).2.phase =
      fmod ((CPG.init 0.01 2 0.2 0.5).phase + 1 * 0.005 * (2 * Real.pi))
        (2 * Real.pi) :=
  cpg_delta_scaling (CPG.init 0.01 2 0.2 0.5)
    ⟨rfl, rfl, rfl, rfl, rfl, rfl, rfl, rfl, rfl, rfl⟩ 1 1 1

/-- C6: the returned foot position is
`x = -d_step * (current_amplitude - 1) * cos current_phase` and
`z = -h + gc * sin current_phase` when `sin current_phase > 0` (strictly),
otherwise `z = -h + gp * sin current_phase`, all in terms of the post-update
internal state. -/
theorem cpg_foot_position (s : CPG) (ad fd pd : ℝ) :
    (CPG.update s ad fd pd).1.1 =
      -s.d_step * ((CPG.update s ad fd pd).2.current_amplitude - 1) *
        Real.cos (CPG.update s ad fd pd).2.current_phase ∧
    (CPG.update s ad fd pd).1.2 =
      (if Real.sin (CPG.update s ad fd pd).2.current_phase > 0 then
        -s.h + s.gc * Real.sin (CPG.update s ad fd pd).2.current_phase
      else
        -s.h + s.gp * Real.sin (CPG.update s ad fd pd).2.current_phase) :=
  ⟨rfl, rfl⟩

/-- C9: a state whose target amplitude starts below `amplitude_min` (as with
the default initial amplitude `0.01 < 0.05`) has that parameter clamped up to
the boundary `0.05` by the very first all-zero-delta update, so a zero-delta
update is not a no-op on out-of-range target parameters. -/
theorem cpg_zero_delta_clamps (s : CPG) (hlim : CPG.defaultLimits s)
    (hlow : s.amplitude < 0.05) :
    (CPG.update s 0 0 0).2.amplitude = 0.05 ∧
    (CPG.update s 0 0 0).2.amplitude ≠ s.amplitude := by
  obtain ⟨hma, hMa, -, -, -, -, -, -, -, -⟩ := hlim
  have hamp : (CPG.update s 0 0 0).2.amplitude = 0.05 := by
    rw [CPG.update_amplitude, hma, hMa]
    unfold npClip
    rw [zero_mul, add_zero, max_eq_right hlow.le,
      min_eq_left (by norm_num : (0.05 : ℝ) ≤ 0.35)]
  exact ⟨hamp, by rw [hamp]; exact hlow.ne'⟩

theorem cpg_zero_delta_clamps_witness :
    (CPG.update (CPG.init 0.01 0 0.01 0.5) 0 0 0).2.amplitude = 0.05 ∧
    (CPG.update (CPG.init 0.01 0 0.01 0.5) 0 0 0).2.amplitude ≠
      (CPG.init 0.01 0 0.01 0.5).amplitude :=
  cpg_zero_delta_clamps (CPG.init 0.01 0 0.01 0.5)
    ⟨rfl, rfl, rfl, rfl, rfl, rfl, rfl, rfl, rfl, rfl⟩ (by norm_num [CPG.init])

/-- C10: `reset` writes exactly the five mutable state fields (to its
arguments) and leaves `dt`, the six parameter limits and the four geometry
constants untouched; `update` also leaves all eleven of those untouched. -/
theorem cpg_frame_condition (s : CPG) (p a f ad fd pd : ℝ) :
    ((CPG.reset s p a f).amplitude = a ∧
     (CPG.reset s p a f).frequency = f ∧
     (CPG.reset s p a f).phase = p ∧
     (CPG.reset s p a f).current_amplitude = a ∧
     (CPG.reset s p a f).current_phase = p) ∧
    ((CPG.reset s p a f).dt = s.dt ∧
     (CPG.reset s p a f).amplitude_min = s.amplitude_min ∧
     (CPG.reset s p a f).amplitude_max = s.amplitude_max ∧
     (CPG.reset s p a f).frequency_min = s.frequency_min ∧
     (CPG.reset s p a f).frequency_max = s.frequency_max ∧
     (CPG.reset s p a f).phase_min = s.phase_min ∧
     (CPG.reset s p a f).phase_max = s.phase_max ∧
     (CPG.reset s p a f).d_step = s.d_step ∧
     (CPG.reset s p a f).h = s.h ∧
     (CPG.reset s p a f).gc = s.gc ∧
     (CPG.reset s p a f).gp = s.gp) ∧
    ((CPG.update s ad fd pd).2.dt = s.dt ∧
     (CPG.update s ad fd pd).2.amplitude_min = s.amplitude_min ∧
     (CPG.update s ad fd pd).2.amplitude_max = s.amplitude_max ∧
     (CPG.update s ad fd pd).2.frequency_min = s.frequency_min ∧
     (CPG.update s ad fd pd).2.frequency_max = s.frequency_max ∧
     (CPG.update s ad fd pd).2.phase_min = s.phase_min ∧
     (CPG.update s ad fd pd).2.phase_max = s.phase_max ∧
     (CPG.update s ad fd pd).2.d_step = s.d_step ∧
     (CPG.update s ad fd pd).2.h = s.h ∧
     (CPG.update s ad fd pd).2.gc = s.gc ∧
     (CPG.update s ad fd pd).2.gp = s.gp) :=
  ⟨⟨rfl, rfl, rfl, rfl, rfl⟩,
   ⟨rfl, rfl, rfl, rfl, rfl, rfl, rfl, rfl, rfl, rfl, rfl⟩,
   ⟨rfl, rfl, rfl, rfl, rfl, rfl, rfl, rfl, rfl, rfl, rfl⟩⟩

/-- C8: `reset` followed by a zero-delta `update` returns the same `(x, z)`
as constructing a fresh oscillator with the same `dt` and identical
arguments followed by a zero-delta `update`. -/
theorem cpg_reset_init_roundtrip (s : CPG) (dt p a f : ℝ)
    (hdt : s.dt = dt) (hlim : CPG.defaultLimits s) :
    (CPG.update (CPG.reset s p a f) 0 0 0).1 =
      (CPG.update (CPG.init dt p a f) 0 0 0).1 := by
  have hstate : CPG.reset s p a f = CPG.init dt p a f := by
    obtain ⟨h1, h2, h3, h4, h5, h6, h7, h8, h9, h10⟩ := hlim
    cases s
    simp_all [CPG.reset, CPG.init]
  rw [hstate]

theorem cpg_reset_init_roundtrip_witness :
    (CPG.update (CPG.reset (CPG.init 0.01 1 0.2 0.7) 2 0.1 1.5) 0 0 0).1 =
      (CPG.update (CPG.init 0.01 2 0.1 1.5) 0 0 0).1 :=
  cpg_reset_init_roundtrip (CPG.init 0.01 1 0.2 0.7) 0.01 2 0.1 1.5 rfl
    ⟨rfl, rfl, rfl, rfl, rfl, rfl, rfl, rfl, rfl, rfl⟩

/-! ## The zero-delta convergence scenario (claim C7) -/

theorem zeroRunInv_zero : ZeroRunInv 0 (zeroRun 0) := by
  refine ⟨⟨rfl, rfl, rfl, rfl, rfl, rfl, rfl, rfl, rfl, rfl⟩, rfl, rfl, ?_, ?_, ?_⟩
  · show (0.01 : ℝ) = 0.05 - 0.04 * (0.7 : ℝ) ^ 0
    norm_num
  · intro _; rfl
  · intro hcon; exact absurd hcon (by norm_num)

theorem zeroRunInv_step (n : ℕ) (s : CPG) (hinv : ZeroRunInv n s) :
    ZeroRunInv (n + 1) (zeroStep s) := by
  obtain ⟨hlim, hdt, hfreq, hca, h0, h1⟩ := hinv
  obtain ⟨hma, hMa, hmf, hMf, hmp, hMp, hd, hh, hgc, hgp⟩ := hlim
  have hamp : (zeroStep s).amplitude = 0.05 := by
    show (CPG.update s 0 0 0).2.amplitude = 0.05
    rw [CPG.update_amplitude, hma, hMa, zero_mul, add_zero]
    rcases Nat.eq_zero_or_pos n with hn | hn
    · rw [h0 hn]
      unfold npClip
      rw [max_eq_right (by norm_num : (0.01 : ℝ) ≤ 0.05),
        min_eq_left (by norm_num : (0.05 : ℝ) ≤ 0.35)]
    · rw [h1 hn]
      unfold npClip
      rw [max_eq_left (le_refl (0.05 : ℝ)),
        min_eq_left (by norm_num : (0.05 : ℝ) ≤ 0.35)]
  have hfr : (zeroStep s).frequency = 0.5 := by
    show (CPG.update s 0 0 0).2.frequency = 0.5
    rw [CPG.update_frequency, hmf, hMf, zero_mul, add_zero, hfreq]
    unfold npClip
    rw [max_eq_left (by norm_num : (0.1 : ℝ) ≤ 0.5),
      min_eq_left (by norm_num : (0.5 : ℝ) ≤ 3.0)]
  refine ⟨⟨?_, ?_, ?_, ?_, ?_, ?_, ?_, ?_, ?_, ?_⟩, ?_, hfr, ?_, ?_, ?_⟩
  · exact hma
  · exact hMa
  · exact hmf
  · exact hMf
  · exact hmp
  · exact hMp
  · exact hd
  · exact hh
  · exact hgc
  · exact hgp
  · exact hdt
  · show (CPG.update s 0 0 0).2.current_amplitude = _
    rw [CPG.update_current_amplitude]
    show s.current_amplitude +
        30.0 * ((zeroStep s).amplitude - s.current_amplitude) * s.dt = _
    rw [hamp, hca, hdt]
    ring
  · intro hcon; exact absurd hcon (Nat.succ_ne_zero n)
  · intro _; exact hamp

theorem zeroRun_succ (n : ℕ) : zeroRun (n + 1) = zeroStep (zeroRun n) :=
  Function.iterate_succ_apply' zeroStep n _

theorem zeroRunInv_all (n : ℕ) : ZeroRunInv n (zeroRun n) := by
  induction n with
  | zero => exact zeroRunInv_zero
  | succ n ih => rw [zeroRun_succ]; exact zeroRunInv_step n _ ih

theorem zeroRunDist_zero : zeroRunDist 0 = 0 := by
  obtain ⟨-, -, -, hca, h0, -⟩ := zeroRunInv_all 0
  unfold zeroRunDist
  rw [hca, h0 rfl]
  norm_num

theorem zeroRunDist_pos (n : ℕ) (hn : 1 ≤ n) :
    zeroRunDist n = 0.04 * (0.7 : ℝ) ^ n := by
  obtain ⟨-, -, -, hca, -, h1⟩ := zeroRunInv_all n
  unfold zeroRunDist
  rw [hca, h1 hn]
  have hv : (0.05 : ℝ) - 0.04 * (0.7 : ℝ) ^ n - 0.05 = -(0.04 * (0.7 : ℝ) ^ n) := by
    ring
  rw [hv, abs_neg, abs_of_nonneg (by positivity)]

/-- C7 counterexample: with `dt=0.01`, `phase=0`, `amplitude=0.01`,
`frequency=0.5` and zero deltas, the distance `|current_amplitude - amplitude|`
is `0` before the first update and `0.028` after it (the first update clamps
the target amplitude from `0.01` up to `0.05`), so the distance strictly
increases at the first step instead of decreasing. -/
theorem cpg_zero_delta_distance_counterexample :
    zeroRunDist 0 = 0 ∧ zeroRunDist 1 = 0.028 ∧
    ¬ zeroRunDist 1 < zeroRunDist 0 := by
  have h1 : zeroRunDist 1 = 0.028 := by
    rw [zeroRunDist_pos 1 le_rfl]
    norm_num
  refine ⟨zeroRunDist_zero, h1, ?_⟩
  rw [h1, zeroRunDist_zero]
  norm_num

/-- C7 (amended): in the same scenario, the distance
`|current_amplitude - amplitude|` is strictly decreasing at every step from
the first update onward (for all `n ≥ 1`, the distance after step `n + 1` is
strictly below the distance after step `n`; at the first update the clamping
of the out-of-range target `0.01` to `0.05` makes the distance jump from `0`
to `0.028`), and `current_phase` advances by `0.5 * 0.01` per step modulo
`2π` at every step. -/
theorem cpg_zero_delta_convergence (n : ℕ) :
    (1 ≤ n → zeroRunDist (n + 1) < zeroRunDist n) ∧
    (zeroRun (n + 1)).current_phase =
      fmod ((zeroRun n).current_phase + 0.5 * 0.01) (2 * Real.pi) := by
  constructor
  · intro hn
    rw [zeroRunDist_pos n hn, zeroRunDist_pos (n + 1) (Nat.le_succ_of_le hn)]
    have hpow : (0.7 : ℝ) ^ (n + 1) < (0.7 : ℝ) ^ n :=
      pow_lt_pow_right_of_lt_one₀ (by norm_num) (by norm_num) (Nat.lt_succ_self n)
    nlinarith [hpow]
  · obtain ⟨⟨-, -, hmf, hMf, -, -, -, -, -, -⟩, hdt, hfreq, -, -, -⟩ :=
      zeroRunInv_all n
    rw [zeroRun_succ]
    show (CPG.update (zeroRun n) 0 0 0).2.current_phase = _
    rw [CPG.update_current_phase, CPG.update_frequency, hmf, hMf, hfreq, hdt,
      zero_mul, add_zero]
    have hcl : npClip 0.5 0.1 3.0 = (0.5 : ℝ) := by
      unfold npClip
      rw [max_eq_left (by norm_num : (0.1 : ℝ) ≤ 0.5),
        min_eq_left (by norm_num : (0.5 : ℝ) ≤ 3.0)]
    rw [hcl]

theorem cpg_zero_delta_convergence_witness :
    zeroRunDist 2 < zeroRunDist 1 ∧
    (zeroRun 2).current_phase =
      fmod ((zeroRun 1).current_phase + 0.5 * 0.01) (2 * Real.pi) :=
  ⟨(cpg_zero_delta_convergence 1).1 le_rfl, (cpg_zero_delta_convergence 1).2⟩

/-! ## GAE (claim C2) -/

theorem zipWith4_nil (fn : ℚ → ℚ → ℚ → ℚ → ℚ) (v nv d : List ℚ) :
    zipWith4 fn [] v nv d = [] := by
  cases v <;> cases nv <;> cases d <;> rfl

theorem gaeBackward_nil (gamma lam : ℚ) (d : List ℚ) :
    gaeBackward gamma lam [] d = [] := by
  cases d <;> rfl

theorem compute_advantages_nil (gamma lam : ℚ) (v nv d : List ℚ) :
    compute_advantages gamma lam [] v nv d = [] := by
  unfold compute_advantages tdDeltas
  rw [zipWith4_nil, gaeBackward_nil]

theorem compute_advantages_cons (gamma lam r0 v0 nv0 d0 : ℚ)
    (rs vs nvs ds : List ℚ) :
    compute_advantages gamma lam (r0 :: rs) (v0 :: vs) (nv0 :: nvs) (d0 :: ds) =
      ((r0 + gamma * nv0 * (1 - d0) - v0) + gamma * lam * (1 - d0) *
        (compute_advantages gamma lam rs vs nvs ds).headD 0) ::
      compute_advantages gamma lam rs vs nvs ds := rfl

theorem headD_eq_getD (l : List ℚ) : l.headD 0 = l.getD 0 0 := by
  cases l <;> rfl

theorem compute_advantages_length (gamma lam : ℚ) (r v nv d : List ℚ)
    (hv : v.length = r.length) (hnv : nv.length = r.length)
    (hd : d.length = r.length) :
    (compute_advantages gamma lam r v nv d).length = r.length := by
  induction r generalizing v nv d with
  | nil => rw [compute_advantages_nil]
  | cons r0 rs ih =>
    cases v with
    | nil => simp at hv
    | cons v0 vs =>
      cases nv with
      | nil => simp at hnv
      | cons nv0 nvs =>
        cases d with
        | nil => simp at hd
        | cons d0 ds =>
          rw [compute_advantages_cons]
          simp only [List.length_cons] at hv hnv hd ⊢
          rw [ih vs nvs ds (by omega) (by omega) (by omega)]

theorem zipWithAdd_getD (xs ys : List ℚ) (t : ℕ)
    (hx : t < xs.length) (hy : t < ys.length) :
    (List.zipWith (· + ·) xs ys).getD t 0 = xs.getD t 0 + ys.getD t 0 := by
  induction xs generalizing ys t with
  | nil => simp at hx
  | cons x xs ih =>
    cases ys with
    | nil => simp at hy
    | cons y ys =>
      cases t with
      | zero => rfl
      | succ t =>
        simp only [List.length_cons] at hx hy
        exact ih ys t (by omega) (by omega)

theorem gae_recursion_aux (gamma lam : ℚ) (r v nv d : List ℚ)
    (hv : v.length = r.length) (hnv : nv.length = r.length)
    (hd : d.length = r.length) (t : ℕ) (ht : t < r.length) :
    (compute_advantages gamma lam r v nv d).getD t 0 =
      (r.getD t 0 + gamma * nv.getD t 0 * (1 - d.getD t 0) - v.getD t 0) +
        gamma * lam * (1 - d.getD t 0) *
          (compute_advantages gamma lam r v nv d).getD (t + 1) 0 ∧
    (update_returns gamma lam r v nv d).getD t 0 =
      (compute_advantages gamma lam r v nv d).getD t 0 + v.getD t 0 := by
  induction r generalizing v nv d t with
  | nil => simp at ht
  | cons r0 rs ih =>
    cases v with
    | nil => simp at hv
    | cons v0 vs =>
      cases nv with
      | nil => simp at hnv
      | cons nv0 nvs =>
        cases d with
        | nil => simp at hd
        | cons d0 ds =>
          simp only [List.length_cons] at hv hnv hd ht
          have hv' : vs.length = rs.length := by omega
          have hnv' : nvs.length = rs.length := by omega
          have hd' : ds.length = rs.length := by omega
          cases t with
          | zero =>
            constructor
            · rw [compute_advantages_cons]
              simp only [List.getD_cons_zero, List.getD_cons_succ,
                headD_eq_getD]
            · simp only [update_returns, compute_advantages_cons,
                List.zipWith_cons_cons, List.getD_cons_zero]
          | succ t =>
            have ht' : t < rs.length := by omega
            have hrec := ih vs nvs ds hv' hnv' hd' t ht'
            exact ⟨hrec.1, hrec.2⟩

/-- C2: for equal-length buffers, `compute_advantages` produces one advantage
per step satisfying the backward GAE recursion
`advantage[t] = delta[t] + gamma * lam * (1 - done[t]) * advantage[t+1]`
(with the carry starting at `0` past the last step), where
`delta[t] = reward[t] + gamma * next_value[t] * (1 - done[t]) - value[t]`,
and the returns handed to the loss equal `advantage[t] + value[t]`. -/
theorem gae_advantages_and_returns (gamma lam : ℚ)
    (rewards state_values next_state_values dones : List ℚ)
    (hv : state_values.length = rewards.length)
    (hnv : next_state_values.length = rewards.length)
    (hd : dones.length = rewards.length) (t : ℕ) (ht : t < rewards.length) :
    (compute_advantages gamma lam rewards state_values next_state_values
      dones).length = rewards.length ∧
    (compute_advantages gamma lam rewards state_values next_state_values
      dones).getD t 0 =
      (rewards.getD t 0 +
          gamma * next_state_values.getD t 0 * (1 - dones.getD t 0) -
          state_values.getD t 0) +
        gamma * lam * (1 - dones.getD t 0) *
          (compute_advantages gamma lam rewards state_values next_state_values
            dones).getD (t + 1) 0 ∧
    (update_returns gamma lam rewards state_values next_state_values
      dones).getD t 0 =
      (compute_advantages gamma lam rewards state_values next_state_values
        dones).getD t 0 + state_values.getD t 0 :=
  ⟨compute_advantages_length gamma lam _ _ _ _ hv hnv hd,
   (gae_recursion_aux gamma lam _ _ _ _ hv hnv hd t ht).1,
   (gae_recursion_aux gamma lam _ _ _ _ hv hnv hd t ht).2⟩

theorem gae_advantages_and_returns_witness :
    (compute_advantages (99/100) (19/20) [1, 1, 1] [1, 2, 3] [4, 5, 6]
      [0, 0, 1]).length = ([1, 1, 1] : List ℚ).length ∧
    (compute_advantages (99/100) (19/20) [1, 1, 1] [1, 2, 3] [4, 5, 6]
      [0, 0, 1]).getD 1 0 =
      (([1, 1, 1] : List ℚ).getD 1 0 +
          (99/100) * ([4, 5, 6] : List ℚ).getD 1 0 *
            (1 - ([0, 0, 1] : List ℚ).getD 1 0) -
          ([1, 2, 3] : List ℚ).getD 1 0) +
        (99/100) * (19/20) * (1 - ([0, 0, 1] : List ℚ).getD 1 0) *
          (compute_advantages (99/100) (19/20) [1, 1, 1] [1, 2, 3] [4, 5, 6]
            [0, 0, 1]).getD (1 + 1) 0 ∧
    (update_returns (99/100) (19/20) [1, 1, 1] [1, 2, 3] [4, 5, 6]
      [0, 0, 1]).getD 1 0 =
      (compute_advantages (99/100) (19/20) [1, 1, 1] [1, 2, 3] [4, 5, 6]
        [0, 0, 1]).getD 1 0 + ([1, 2, 3] : List ℚ).getD 1 0 :=
  gae_advantages_and_returns (99/100) (19/20) [1, 1, 1] [1, 2, 3] [4, 5, 6]
    [0, 0, 1] rfl rfl rfl 1 (by norm_num)

/-! ## PPO loss (claim C3) -/

theorem zipWith_min_surrogate (epsilon : ℝ) (lpn lpo adv : List ℝ) :
    List.zipWith min
      (List.zipWith (· * ·)
        (List.zipWith (fun lp lpo => Real.exp (lp - lpo)) lpn lpo) adv)
      (List.zipWith (fun rt a => torchClamp rt (1 - epsilon) (1 + epsilon) * a)
        (List.zipWith (fun lp lpo => Real.exp (lp - lpo)) lpn lpo) adv) =
    zipWith3 (fun lp lpo a =>
      min (Real.exp (lp - lpo) * a)
        (torchClamp (Real.exp (lp - lpo)) (1 - epsilon) (1 + epsilon) * a))
      lpn lpo adv := by
  induction lpn generalizing lpo adv with
  | nil => rfl
  | cons n ns ih =>
    cases lpo with
    | nil => rfl
    | cons o os =>
      cases adv with
      | nil => rfl
      | cons a as =>
        simp only [List.zipWith_cons_cons, zipWith3]
        exact congrArg _ (ih os as)

/-- C3: `ppo_loss` computes
`policy_loss = -mean(min(r * adv, clamp(r, 1-eps, 1+eps) * adv))` with
`r = exp(log_prob_new - log_prob_old)`, `value_loss` the mean-squared error
between predicted values and returns, and
`total = policy_loss + 0.5 * value_loss - entropy_coef * mean(entropy)`. -/
theorem ppo_loss_formula (epsilon entropy_coef : ℝ)
    (log_probs log_probs_old advantages values returns entropy : List ℝ) :
    ppo_loss epsilon entropy_coef log_probs log_probs_old advantages values
      returns entropy =
      (-(listMean (zipWith3 (fun lp lpo a =>
            min (Real.exp (lp - lpo) * a)
              (torchClamp (Real.exp (lp - lpo)) (1 - epsilon) (1 + epsilon) * a))
          log_probs log_probs_old advantages)) +
         0.5 * listMean (List.zipWith (fun v ret => (v - ret) ^ 2) values returns)
         - entropy_coef * listMean entropy,
       -(listMean (zipWith3 (fun lp lpo a =>
            min (Real.exp (lp - lpo) * a)
              (torchClamp (Real.exp (lp - lpo)) (1 - epsilon) (1 + epsilon) * a))
          log_probs log_probs_old advantages)),
       listMean (List.zipWith (fun v ret => (v - ret) ^ 2) values returns)) := by
  simp only [ppo_loss]
  rw [zipWith_min_surrogate]

/-! ## Trainer loop (claim C4) -/

theorem trainerInv_of_reachable (s : TrainerState) (h : TrainerReachable s) :
    TrainerInv s := by
  induction h with
  | init =>
      exact ⟨by norm_num [max_timestep], fun _ => rfl, fun hc => by simp at hc⟩
  | step s tr hs hdone hlt ih =>
      obtain ⟨hle, hlive, hterm⟩ := ih
      by_cases hc : tr.done = true ∨ (s.timestep + 1) % rollout_steps = 0
      · unfold trainerStep
        rw [if_pos hc]
        refine ⟨?_, ?_, fun _ => rfl⟩
        · show s.timestep + 1 ≤ max_timestep
          unfold max_timestep at *
          omega
        · intro hnd
          have hnd' : tr.done = false := hnd
          show List.length ([] : List Transition) = (s.timestep + 1) % rollout_steps
          rcases hc with hd | hm
          · rw [hnd'] at hd
            simp at hd
          · exact hm.symm
      · have hnd : tr.done ≠ true := fun hd => hc (Or.inl hd)
        have hnm : (s.timestep + 1) % rollout_steps ≠ 0 :=
          fun hm => hc (Or.inr hm)
        unfold trainerStep
        rw [if_neg hc]
        refine ⟨?_, ?_, fun hd => absurd (show tr.done = true from hd) hnd⟩
        · show s.timestep + 1 ≤ max_timestep
          unfold max_timestep at *
          omega
        · intro _
          show (s.episode_buffer ++ [tr]).length = (s.timestep + 1) % rollout_steps
          have hl := hlive hdone
          simp only [List.length_append, List.length_singleton, hl]
          unfold rollout_steps at *
          omega
  | episode s hs hterm ih =>
      obtain ⟨hle, hlive, hdone⟩ := ih
      have hbuf : s.episode_buffer = [] := by
        rcases hterm with hd | hcap
        · exact hdone hd
        · cases hsd : s.done with
          | true => exact hdone hsd
          | false =>
            have hl := hlive hsd
            have : s.episode_buffer.length = 0 := by
              rw [hl]
              unfold rollout_steps max_timestep at *
              omega
            exact List.length_eq_zero.mp this
      refine ⟨by norm_num [max_timestep], ?_, ?_⟩
      · intro _
        rw [hbuf]
        rfl
      · intro hc
        simp at hc

/-- C4: in every reachable state of the episode loop (with
`rollout_steps = 100`, `max_timestep = 1000`) the episode buffer holds at
most `rollout_steps` transitions, and a step triggers an update cycle
followed by clearing the buffer exactly when the environment signalled
termination or the buffer (after appending the step's transition) reached
`rollout_steps` transitions. -/
theorem trainer_buffer_bound_and_trigger (s : TrainerState)
    (h : TrainerReachable s) (tr : Transition) :
    s.episode_buffer.length ≤ rollout_steps ∧
    (s.done = false → s.timestep < max_timestep →
      (((trainerStep s tr).updates = s.updates + 1 ∧
          (trainerStep s tr).episode_buffer = []) ↔
        (tr.done = true ∨
          (s.episode_buffer ++ [tr]).length = rollout_steps))) := by
  obtain ⟨hle, hlive, hterm⟩ := trainerInv_of_reachable s h
  constructor
  · cases hsd : s.done with
    | true => rw [hterm hsd]; exact Nat.zero_le _
    | false =>
      rw [hlive hsd]
      have hmod : s.timestep % rollout_steps < rollout_steps :=
        Nat.mod_lt _ (by norm_num [rollout_steps])
      omega
  · intro hsd hlt
    have hlen : s.episode_buffer.length = s.timestep % rollout_steps :=
      hlive hsd
    by_cases hc : tr.done = true ∨ (s.timestep + 1) % rollout_steps = 0
    · constructor
      · intro _
        rcases hc with hd | hm
        · exact Or.inl hd
        · right
          simp only [List.length_append, List.length_singleton, hlen]
          unfold rollout_steps at *
          omega
      · intro _
        unfold trainerStep
        rw [if_pos hc]
        exact ⟨rfl, rfl⟩
    · have hnd : tr.done ≠ true := fun hd => hc (Or.inl hd)
      have hnm : (s.timestep + 1) % rollout_steps ≠ 0 :=
        fun hm => hc (Or.inr hm)
      constructor
      · intro hupd
        exfalso
        have hsame : (trainerStep s tr).updates = s.updates := by
          unfold trainerStep
          rw [if_neg hc]
        rw [hsame] at hupd
        omega
      · intro hor
        exfalso
        rcases hor with hd | hfull
        · exact hnd hd
        · simp only [List.length_append, List.length_singleton, hlen] at hfull
          unfold rollout_steps at *
          omega

theorem trainer_buffer_bound_and_trigger_witness :
    ({ timestep := 0, episode_buffer := [], done := false, updates := 0 } :
        TrainerState).episode_buffer.length ≤ rollout_steps ∧
    (({ timestep := 0, episode_buffer := [], done := false, updates := 0 } :
          TrainerState).done = false →
      ({ timestep := 0, episode_buffer := [], done := false, updates := 0 } :
          TrainerState).timestep < max_timestep →
      (((trainerStep
            ({ timestep := 0, episode_buffer := [], done := false,
                updates := 0 } : TrainerState)
            (⟨[], [], 0, 0, 0, 0, false⟩ : Transition)).updates =
          ({ timestep := 0, episode_buffer := [], done := false,
              updates := 0 } : TrainerState).updates + 1 ∧
        (trainerStep
            ({ timestep := 0, episode_buffer := [], done := false,
                updates := 0 } : TrainerState)
            (⟨[], [], 0, 0, 0, 0, false⟩ : Transition)).episode_buffer = []) ↔
       ((⟨[], [], 0, 0, 0, 0, false⟩ : Transition).done = true ∨
        (({ timestep := 0, episode_buffer := [], done := false,
             updates := 0 } : TrainerState).episode_buffer ++
           [(⟨[], [], 0, 0, 0, 0, false⟩ : Transition)]).length =
          rollout_steps))) :=
  trainer_buffer_bound_and_trigger
    ({ timestep := 0, episode_buffer := [], done := false, updates := 0 } :
      TrainerState)
    TrainerReachable.init (⟨[], [], 0, 0, 0, 0, false⟩ : Transition)
